import Mathlib

/-!
Verification of the pipeline-monitoring script `gitlab-scripts/monitor_pipeline.py`
(the "Pipeline Watchdog") and its repository loader.

The script's worker `monitor_repository(repo_path, gl)` drives a poll/retry loop
against an external GitLab collaborator.  We embed that loop shallowly: every
external call the worker makes (project fetch, latest-pipeline listing, pipeline
status refresh, job listing, full-job fetch, job refresh, job retry) is answered
by an `Env` record of oracles, each returning `Except String _` — `Except.error`
models the Python call raising an exception whose message is the carried string.
Within one worker the calls are strictly sequential, so oracles indexed by the
poll-iteration number (and job id) determine a unique run.

The worker's local mutable state (`job_failures_by_name`, `retries`,
`failed_pipelines`, plus instrumentation counting actual sleeps and actual retry
issuances) is threaded explicitly.  The unbounded `while True:` loop is given
fuel; running out of fuel yields a distinguished non-terminal outcome.
-/

/-- A full job object as returned by `project.jobs.get(...).refresh()`:
the fields the loop reads are `name` and `status`. -/
structure Job where
  name : String
  status : String
deriving DecidableEq

/-- The oracles answering the worker's external calls, in the order the source
makes them.  `Except.error msg` models the underlying Python call raising an
exception with message `msg`. -/
structure Env where
  /-- Oracle for `gl.projects.get(repo_path)` (the project object itself is only used as a
  handle, so we record merely whether the call succeeds). -/
  getProject : Except String Unit
  /-- Oracle for `project.pipelines.list(per_page=1, order_by='id', sort='desc', get_all=False)`,
  as the list of returned pipeline ids (at most one in practice). -/
  pipelines : Except String (List Nat)
  /-- Oracle for `pipeline.refresh()` at poll iteration `iter`: the refreshed pipeline status. -/
  refreshStatus : Nat → Except String String
  /-- Oracle for `pipeline.jobs.list(all=True)` at poll iteration `iter`: partial job ids. -/
  listJobs : Nat → Except String (List Nat)
  /-- Oracle for `project.jobs.get(partial_job.id)` at iteration `iter` for job id `id`. -/
  fullJob : Nat → Nat → Except String Job
  /-- Oracle for `full_job.refresh()` at iteration `iter` for job id `id`: the refreshed job. -/
  jobRefresh : Nat → Nat → Except String Job
  /-- Oracle for `full_job.retry()` at iteration `iter` for job id `id`. -/
  retryJob : Nat → Nat → Except String Unit

/-- The worker's local state.  `tallies` embeds the Python dict
`job_failures_by_name` as an insertion-ordered association list;
`retries` is the script's retry counter; `failedPipelines` the accumulated
failure-reason strings.  `sleeps` and `issued` are instrumentation (not in the
source): `sleeps` counts executed `sleep(5)` calls and `issued` counts calls of
`full_job.retry()`. -/
structure MState where
  tallies : List (String × Nat)
  retries : Nat
  failedPipelines : List String
  sleeps : Nat
  issued : Nat
deriving DecidableEq

/-- The state at loop entry: empty dict, zero counters. -/
def initState : MState := ⟨[], 0, [], 0, 0⟩

/-- Lookup of the first binding of `k`; absent keys give 0, the
default used by `setdefault(job_name, 0)`. -/
def getD : List (String × Nat) → String → Nat
  | [], _ => 0
  | (k', v) :: rest, k => if k' = k then v else getD rest k

/-- Membership test (`k in d`) on the embedded dict. -/
def hasKey : List (String × Nat) → String → Bool
  | [], _ => false
  | (k', _) :: rest, k => k' = k || hasKey rest k

/-- Embedding of `job_failures_by_name.setdefault(job_name, 0)`: insert `(k, 0)` at the end
iff `k` is absent (Python dicts preserve insertion order). -/
def setdefault (m : List (String × Nat)) (k : String) : List (String × Nat) :=
  if hasKey m k then m else m ++ [(k, 0)]

/-- Embedding of `job_failures_by_name[job_name] += 1`: update the binding of `k` (unique,
since only `setdefault` inserts keys). -/
def bump : List (String × Nat) → String → List (String × Nat)
  | [], _ => []
  | (k', v) :: rest, k =>
    if k' = k then (k', v + 1) :: rest else (k', v) :: bump rest k

/-- The failure reason recorded when a job's tally is already at the threshold:
`f"Pipeline {pipeline.id} failed due to job '{job_name}' exceeding {THRESHOLD} failures."` -/
def thresholdMsg (pid : Nat) (name : String) (T : Nat) : String :=
  "Pipeline " ++ toString pid ++ " failed due to job '" ++ name ++
    "' exceeding " ++ toString T ++ " failures."

/-- Result of the `for partial_job in jobs:` loop body. -/
inductive JobsOut where
  /-- The loop ran to completion without setting `failed_any_job`. -/
  | done (st : MState)
  /-- Case `failed_any_job = True; break` (caught job-fetch error, caught retry
  error, or threshold reached). -/
  | broke (st : MState)
  /-- An uncaught exception (from `full_job.refresh()`) propagating to the
  worker's outer handler. -/
  | raised (e : String) (st : MState)
deriving DecidableEq

/-- The `for partial_job in jobs:` loop of `monitor_repository`, at poll
iteration `iter` of pipeline `pid`, with threshold `T`. -/
def processJobs (env : Env) (T pid iter : Nat) : List Nat → MState → JobsOut
  | [], st => .done st
  | id :: rest, st =>
    match env.fullJob iter id with
    | .error _ => .broke st
    | .ok _ =>
      match env.jobRefresh iter id with
      | .error e => .raised e st
      | .ok job =>
        if job.status = "failed" ∨ job.status = "canceled" then
          let t0 := setdefault st.tallies job.name
          if getD t0 job.name < T then
            let st2 : MState :=
              { st with tallies := bump t0 job.name, retries := st.retries + 1 }
            match env.retryJob iter id with
            | .error _ => .broke { st2 with issued := st2.issued + 1 }
            | .ok _ =>
              processJobs env T pid iter rest
                { st2 with issued := st2.issued + 1, sleeps := st2.sleeps + 1 }
          else
            .broke { st with
                     tallies := t0
                     failedPipelines := st.failedPipelines ++ [thresholdMsg pid job.name T] }
        else
          processJobs env T pid iter rest st

/-- Result of one iteration of the `while True:` loop. -/
inductive IterOut where
  /-- Case `pipeline.status == "success"`: break with success. -/
  | success (st : MState)
  /-- Case `if failed_any_job: break`. -/
  | broke (st : MState)
  /-- Fall through to the next iteration; `slept` records whether the
  end-of-iteration `sleep(5)` ran. -/
  | cont (st : MState) (slept : Bool)
  /-- An uncaught exception propagating to the worker's outer handler. -/
  | exn (e : String) (st : MState)
deriving DecidableEq

/-- One iteration of the `while True:` loop: refresh the pipeline, list its
jobs, check for success, run the job loop, then sleep iff the pipeline status
is none of `success`/`failed`/`canceled`.  Note the job listing happens
*before* the success check, exactly as in the source. -/
def iterStep (env : Env) (T pid iter : Nat) (st : MState) : IterOut :=
  match env.refreshStatus iter with
  | .error e => .exn e st
  | .ok status =>
    match env.listJobs iter with
    | .error e => .exn e st
    | .ok jobIds =>
      if status = "success" then .success st
      else
        match processJobs env T pid iter jobIds st with
        | .raised e st' => .exn e st'
        | .broke st' => .broke st'
        | .done st' =>
          if status = "success" ∨ status = "failed" ∨ status = "canceled" then
            .cont st' false
          else
            .cont { st' with sleeps := st'.sleeps + 1 } true

/-- Terminal (or fuel-exhausted) outcome of the `while True:` loop. -/
inductive Outcome where
  | success (st : MState)
  | failure (st : MState)
  | exn (e : String) (st : MState)
  | fuelOut (st : MState)
deriving DecidableEq

/-- The `while True:` loop, bounded by `fuel` iterations. -/
def monitorLoop (env : Env) (T pid : Nat) : Nat → Nat → MState → Outcome
  | 0, _, st => .fuelOut st
  | fuel+1, iter, st =>
    match iterStep env T pid iter st with
    | .success st' => .success st'
    | .broke st' => .failure st'
    | .exn e st' => .exn e st'
    | .cont st' _ => monitorLoop env T pid fuel (iter+1) st'

/-- The states at the start of each poll iteration, ending with the state at
loop exit (or at fuel exhaustion). -/
def runTrace (env : Env) (T pid : Nat) : Nat → Nat → MState → List MState
  | 0, _, st => [st]
  | fuel+1, iter, st =>
    match iterStep env T pid iter st with
    | .success st' => [st, st']
    | .broke st' => [st, st']
    | .exn _ st' => [st, st']
    | .cont st' _ => st :: runTrace env T pid fuel (iter+1) st'

/-- The per-repository terminal record returned by `monitor_repository`. -/
structure WorkerResult where
  repo : String
  success : Bool
  failed_pipelines : List String
  last_pipeline_url : Option String
  retries : Nat
deriving DecidableEq

/-- Translation of a loop outcome into the dictionary the source returns after
the loop (`if success: ... else: ...`) or from its outer `except` handler.
The exception path hard-codes `"retries": 0`, exactly as the source does. -/
def resultOfOutcome (gitlab_url repo : String) (pid : Nat) : Outcome → Option WorkerResult
  | .success st =>
    some { repo := repo, success := true, failed_pipelines := [],
           last_pipeline_url :=
             some (gitlab_url ++ "/" ++ repo ++ "/pipelines/" ++ toString pid),
           retries := st.retries }
  | .failure st =>
    some { repo := repo, success := false,
           failed_pipelines :=
             if st.failedPipelines = [] then
               ["Pipeline " ++ toString pid ++ " did not succeed"]
             else st.failedPipelines,
           last_pipeline_url := none, retries := st.retries }
  | .exn e _ =>
    some { repo := repo, success := false, failed_pipelines := ["Exception: " ++ e],
           last_pipeline_url := none, retries := 0 }
  | .fuelOut _ => none

/-- Embedding of `monitor_repository(repo_path, gl)`: fetch the project and its latest
pipeline, handle the no-pipeline case, then run the poll/retry loop.  `none`
means the unbounded source loop did not terminate within `fuel` iterations. -/
def monitor_repository (gitlab_url repo : String) (env : Env) (T fuel : Nat) :
    Option WorkerResult :=
  match env.getProject with
  | .error e =>
    some { repo := repo, success := false, failed_pipelines := ["Exception: " ++ e],
           last_pipeline_url := none, retries := 0 }
  | .ok _ =>
    match env.pipelines with
    | .error e =>
      some { repo := repo, success := false, failed_pipelines := ["Exception: " ++ e],
             last_pipeline_url := none, retries := 0 }
    | .ok [] =>
      some { repo := repo, success := false, failed_pipelines := ["No pipeline found"],
             last_pipeline_url := none, retries := 0 }
    | .ok (pid :: _) =>
      resultOfOutcome gitlab_url repo pid (monitorLoop env T pid fuel 0 initState)

/-! ### The Repository Loader (`load_repositories`)

The source maps every non-blank input line through
`line.strip().replace(f"{GITLAB_URL.rstrip('/')}/", "").replace(".git", "")`.
Python's `str.replace` removes *every* occurrence of its pattern, scanning
left-to-right over non-overlapping matches; we embed it on `List Char`
(structurally, with fuel equal to the string length, so it computes in the
kernel). -/

/-- Python `str.strip()` (whitespace at both ends). -/
def pyStrip (l : List Char) : List Char :=
  ((l.dropWhile Char.isWhitespace).reverse.dropWhile Char.isWhitespace).reverse

/-- Python `str.rstrip('/')`. -/
def pyRstripSlash (l : List Char) : List Char :=
  (l.reverse.dropWhile (· == '/')).reverse

/-- Worker for `str.replace(pat, repl)`: replace each leftmost non-overlapping
occurrence of `p` by `r`, continuing after the consumed match.  The fuel bounds
the recursion; with `s.length ≤ fuel` and `p ≠ []` it never runs out. -/
def listReplaceF (p r : List Char) : Nat → List Char → List Char
  | _, [] => []
  | 0, s => s
  | fuel+1, c :: s =>
    if p.isPrefixOf (c :: s) then r ++ listReplaceF p r fuel ((c :: s).drop p.length)
    else c :: listReplaceF p r fuel s

/-- Python `s.replace(pat, repl)` for a non-empty pattern. -/
def listReplace (p r s : List Char) : List Char := listReplaceF p r s.length s

/-- Whether `p` occurs somewhere inside `s` (as a contiguous run). -/
def occursIn (p : List Char) : List Char → Bool
  | [] => p.isEmpty
  | c :: rest => p.isPrefixOf (c :: rest) || occursIn p rest

/-- Python `needle in hay` on strings. -/
def strContains (needle hay : String) : Bool := occursIn needle.toList hay.toList

/-- The per-line transformation of `load_repositories`:
`line.strip().replace(f"{GITLAB_URL.rstrip('/')}/", "").replace(".git", "")`. -/
def normalize_line (gitlab_url line : String) : String :=
  ⟨listReplace ".git".toList []
    (listReplace (pyRstripSlash gitlab_url.toList ++ ['/']) [] (pyStrip line.toList))⟩

/-- Embedding of `load_repositories`: keep the non-blank lines (Python truthiness of
`line.strip()`) and normalize each. -/
def load_repositories (gitlab_url : String) (fileLines : List String) : List String :=
  (fileLines.filter (fun line => !(pyStrip line.toList).isEmpty)).map
    (normalize_line gitlab_url)

/-- Modelled from the spec's words (for the refinement comparison of the
loader claim): strip the base-URL *prefix* if the line starts with it, then
strip one trailing `".git"` *suffix* if present, leaving the rest of the line
unchanged. -/
def stripPrefixThenSuffix (base suf l : List Char) : List Char :=
  let l2 := if base.isPrefixOf l then l.drop base.length else l
  if suf.isSuffixOf l2 then l2.take (l2.length - suf.length) else l2

/-- The spec-described per-line transformation. -/
def normalize_line_spec (gitlab_url line : String) : String :=
  ⟨stripPrefixThenSuffix (pyRstripSlash gitlab_url.toList ++ ['/']) ".git".toList
    (pyStrip line.toList)⟩

/-- The spec-described loader: blank lines ignored, prefix and trailing suffix
stripped, the rest of the line unchanged. -/
def load_repositories_spec (gitlab_url : String) (fileLines : List String) : List String :=
  (fileLines.filter (fun line => !(pyStrip line.toList).isEmpty)).map
    (normalize_line_spec gitlab_url)

/-! ### The run invariant and tally monotonicity -/

/-- Invariant maintained by the worker's loop: tally keys are distinct, every
tally is at most the threshold, and the retry counter equals both the sum of
all tallies and the number of `full_job.retry()` calls made. -/
def WorkerInv (T : Nat) (st : MState) : Prop :=
  (st.tallies.map Prod.fst).Nodup ∧
  (∀ p ∈ st.tallies, p.2 ≤ T) ∧
  st.retries = (st.tallies.map Prod.snd).sum ∧
  st.retries = st.issued

/-- Pointwise order on failure tallies: every job's tally in `s` is at most
its tally in `s'`. -/
def tallyLE (s s' : MState) : Prop := ∀ k, getD s.tallies k ≤ getD s'.tallies k

/-- The worker state carried by a job-loop outcome. -/
def stateOfJobsOut : JobsOut → MState
  | .done st => st
  | .broke st => st
  | .raised _ st => st

/-- The worker state carried by an iteration outcome. -/
def stateOfIterOut : IterOut → MState
  | .success st => st
  | .broke st => st
  | .cont st _ => st
  | .exn _ st => st

/-- The worker state carried by a loop outcome. -/
def stateOfOutcome : Outcome → MState
  | .success st => st
  | .failure st => st
  | .exn _ st => st
  | .fuelOut st => st

/-! ### Example oracles (used by witnesses and counterexamples) -/

/-- Oracle: one job fails once at iteration 0, is retried, and the pipeline
succeeds at iteration 1. -/
def envRetryThenSuccess : Env :=
  { getProject := .ok (), pipelines := .ok [7],
    refreshStatus := fun it => if it = 0 then .ok "running" else .ok "success",
    listJobs := fun it => if it = 0 then .ok [1] else .ok [],
    fullJob := fun _ _ => .ok ⟨"build", "created"⟩,
    jobRefresh := fun it _ =>
      if it = 0 then .ok ⟨"build", "failed"⟩ else .ok ⟨"build", "success"⟩,
    retryJob := fun _ _ => .ok () }

/-- Oracle: a job fails and is retried at iteration 0, then the status refresh
raises `"NET"` at iteration 1. -/
def envRefreshError : Env :=
  { getProject := .ok (), pipelines := .ok [7],
    refreshStatus := fun it => if it = 0 then .ok "running" else .error "NET",
    listJobs := fun _ => .ok [1],
    fullJob := fun _ _ => .ok ⟨"build", "created"⟩,
    jobRefresh := fun it _ =>
      if it = 0 then .ok ⟨"build", "failed"⟩ else .error "NET",
    retryJob := fun _ _ => .ok () }

/-- Oracle: the full-job fetch (`project.jobs.get`) raises `"BOOM"`. -/
def envJobFetchError : Env :=
  { getProject := .ok (), pipelines := .ok [7],
    refreshStatus := fun _ => .ok "running",
    listJobs := fun _ => .ok [1],
    fullJob := fun _ _ => .error "BOOM",
    jobRefresh := fun _ _ => .error "BOOM",
    retryJob := fun _ _ => .ok () }

/-- Oracle: pipeline status is `success` but the job listing raises. -/
def envSuccessJobsError : Env :=
  { getProject := .ok (), pipelines := .ok [7],
    refreshStatus := fun _ => .ok "success",
    listJobs := fun _ => .error "JOBSERR",
    fullJob := fun _ _ => .error "x",
    jobRefresh := fun _ _ => .error "x",
    retryJob := fun _ _ => .ok () }

/-- Oracle: pipeline status is `success` and the job listing succeeds. -/
def envSuccessNoJobs : Env :=
  { getProject := .ok (), pipelines := .ok [7],
    refreshStatus := fun _ => .ok "success",
    listJobs := fun _ => .ok [],
    fullJob := fun _ _ => .error "x",
    jobRefresh := fun _ _ => .error "x",
    retryJob := fun _ _ => .ok () }

/-- Oracle: the repository has no pipelines at all. -/
def envNoPipelines : Env :=
  { getProject := .ok (), pipelines := .ok [],
    refreshStatus := fun _ => .ok "running",
    listJobs := fun _ => .ok [],
    fullJob := fun _ _ => .error "x",
    jobRefresh := fun _ _ => .error "x",
    retryJob := fun _ _ => .ok () }

/-- Oracle: job `deploy` is observed failed at every iteration. -/
def envFirstFailure : Env :=
  { getProject := .ok (), pipelines := .ok [9],
    refreshStatus := fun _ => .ok "running",
    listJobs := fun _ => .ok [4],
    fullJob := fun _ _ => .ok ⟨"deploy", "created"⟩,
    jobRefresh := fun _ _ => .ok ⟨"deploy", "failed"⟩,
    retryJob := fun _ _ => .ok () }

/-- Oracle: the pipeline is permanently `failed` with an empty job list. -/
def envTightLoop : Env :=
  { getProject := .ok (), pipelines := .ok [7],
    refreshStatus := fun _ => .ok "failed",
    listJobs := fun _ => .ok [],
    fullJob := fun _ _ => .error "x",
    jobRefresh := fun _ _ => .error "x",
    retryJob := fun _ _ => .ok () }

/-- Oracle: job `deploy` is observed failed while its tally is already at the
threshold (used with a non-initial entry state). -/
def envThresholdObserved : Env :=
  { getProject := .ok (), pipelines := .ok [9],
    refreshStatus := fun _ => .ok "failed",
    listJobs := fun _ => .ok [2],
    fullJob := fun _ _ => .ok ⟨"deploy", "created"⟩,
    jobRefresh := fun _ _ => .ok ⟨"deploy", "failed"⟩,
    retryJob := fun _ _ => .ok () }

/-! ### Lemmas about the embedded dict operations -/

theorem getD_append_zero (m : List (String × Nat)) (k k' : String) :
    getD (m ++ [(k, 0)]) k' = getD m k' := by
  induction m with
  | nil => by_cases h : k = k' <;> simp [getD, h]
  | cons p rest ih =>
    obtain ⟨a, v⟩ := p
    by_cases h : a = k' <;> simp [getD, h, ih]

theorem getD_setdefault (m : List (String × Nat)) (k k' : String) :
    getD (setdefault m k) k' = getD m k' := by
  unfold setdefault
  split
  · rfl
  · exact getD_append_zero m k k'

theorem getD_eq_zero_of_not_hasKey (m : List (String × Nat)) (k : String)
    (h : hasKey m k = false) : getD m k = 0 := by
  induction m with
  | nil => rfl
  | cons p rest ih =>
    obtain ⟨a, v⟩ := p
    simp [hasKey] at h
    simp [getD, h.1, ih h.2]

theorem hasKey_append_self (m : List (String × Nat)) (k : String) :
    hasKey (m ++ [(k, 0)]) k = true := by
  induction m with
  | nil => simp [hasKey]
  | cons p rest ih =>
    obtain ⟨a, v⟩ := p
    show (decide (a = k) || hasKey (rest ++ [(k, 0)]) k) = true
    rw [ih, Bool.or_true]

theorem hasKey_setdefault_self (m : List (String × Nat)) (k : String) :
    hasKey (setdefault m k) k = true := by
  unfold setdefault
  split
  · assumption
  · exact hasKey_append_self m k

theorem hasKey_iff_mem_keys (m : List (String × Nat)) (k : String) :
    hasKey m k = true ↔ k ∈ m.map Prod.fst := by
  induction m with
  | nil => simp [hasKey]
  | cons p rest ih =>
    obtain ⟨a, v⟩ := p
    simp only [hasKey, Bool.or_eq_true, decide_eq_true_eq, List.map_cons, List.mem_cons, ih]
    constructor
    · rintro (h | h)
      · exact Or.inl h.symm
      · exact Or.inr h
    · rintro (h | h)
      · exact Or.inl h.symm
      · exact Or.inr h

theorem keys_setdefault_nodup (m : List (String × Nat)) (k : String)
    (h : (m.map Prod.fst).Nodup) : ((setdefault m k).map Prod.fst).Nodup := by
  unfold setdefault
  split
  · exact h
  · next hk =>
    have hk' : k ∉ m.map Prod.fst := by
      rw [← hasKey_iff_mem_keys]
      simp [hk]
    simp only [List.map_append, List.map_cons, List.map_nil]
    rw [List.nodup_append]
    refine ⟨h, List.nodup_singleton k, ?_⟩
    intro a ha hb
    simp only [List.mem_singleton] at hb
    subst hb
    exact hk' ha

theorem bound_setdefault (m : List (String × Nat)) (k : String) (T : Nat)
    (h : ∀ p ∈ m, p.2 ≤ T) : ∀ p ∈ setdefault m k, p.2 ≤ T := by
  unfold setdefault
  split
  · exact h
  · intro p hp
    rcases List.mem_append.1 hp with h1 | h1
    · exact h p h1
    · simp only [List.mem_singleton] at h1; subst h1; exact Nat.zero_le T

theorem sum_setdefault (m : List (String × Nat)) (k : String) :
    ((setdefault m k).map Prod.snd).sum = (m.map Prod.snd).sum := by
  unfold setdefault
  split
  · rfl
  · simp

theorem keys_bump (m : List (String × Nat)) (k : String) :
    (bump m k).map Prod.fst = m.map Prod.fst := by
  induction m with
  | nil => rfl
  | cons p rest ih =>
    obtain ⟨a, v⟩ := p
    by_cases h : a = k <;> simp [bump, h, ih]

theorem bump_of_not_hasKey (m : List (String × Nat)) (k : String)
    (h : hasKey m k = false) : bump m k = m := by
  induction m with
  | nil => rfl
  | cons p rest ih =>
    obtain ⟨a, v⟩ := p
    simp [hasKey] at h
    simp [bump, h.1, ih h.2]

theorem getD_bump_self (m : List (String × Nat)) (k : String)
    (h : hasKey m k = true) : getD (bump m k) k = getD m k + 1 := by
  induction m with
  | nil => simp [hasKey] at h
  | cons p rest ih =>
    obtain ⟨a, v⟩ := p
    by_cases ha : a = k
    · simp [bump, getD, ha]
    · simp only [hasKey, Bool.or_eq_true, decide_eq_true_eq] at h
      rcases h with h | h
      · exact absurd h ha
      · simp [bump, getD, ha, ih h]

theorem getD_bump_ne (m : List (String × Nat)) (k k' : String) (h : k' ≠ k) :
    getD (bump m k) k' = getD m k' := by
  induction m with
  | nil => rfl
  | cons p rest ih =>
    obtain ⟨a, v⟩ := p
    by_cases ha : a = k
    · subst ha
      simp [bump, getD, Ne.symm h]
    · by_cases ha' : a = k' <;> simp [bump, getD, ha, ha', h, ih]

theorem getD_le_bump (m : List (String × Nat)) (k k' : String) :
    getD m k' ≤ getD (bump m k) k' := by
  by_cases h : k' = k
  · subst h
    by_cases hk : hasKey m k'
    · rw [getD_bump_self m k' hk]; exact Nat.le_succ _
    · rw [bump_of_not_hasKey m k' (by simpa using hk)]
  · rw [getD_bump_ne m k k' h]

theorem sum_bump (m : List (String × Nat)) (k : String) (h : hasKey m k = true) :
    ((bump m k).map Prod.snd).sum = (m.map Prod.snd).sum + 1 := by
  induction m with
  | nil => simp [hasKey] at h
  | cons p rest ih =>
    obtain ⟨a, v⟩ := p
    by_cases ha : a = k
    · simp [bump, ha]
      omega
    · simp only [hasKey, Bool.or_eq_true, decide_eq_true_eq] at h
      rcases h with h | h
      · exact absurd h ha
      · simp [bump, ha, ih h]
        omega

theorem bound_bump (m : List (String × Nat)) (k : String) (T : Nat)
    (hb : ∀ p ∈ m, p.2 ≤ T) (hlt : getD m k < T) :
    ∀ p ∈ bump m k, p.2 ≤ T := by
  induction m with
  | nil => intro p hp; simp [bump] at hp
  | cons q rest ih =>
    obtain ⟨a, v⟩ := q
    intro p hp
    by_cases ha : a = k
    · subst ha
      simp only [bump, if_pos rfl] at hp
      rcases List.mem_cons.1 hp with h1 | h1
      · subst h1
        have : v < T := by simpa [getD] using hlt
        omega
      · exact hb p (List.mem_cons_of_mem _ h1)
    · simp only [bump, if_neg ha] at hp
      rcases List.mem_cons.1 hp with h1 | h1
      · subst h1; exact hb _ (List.mem_cons_self _ _)
      · have hlt' : getD rest k < T := by simpa [getD, ha] using hlt
        exact ih (fun p hp => hb p (List.mem_cons_of_mem _ hp)) hlt' p h1

theorem tallyLE_refl (s : MState) : tallyLE s s := fun _ => Nat.le_refl _

theorem tallyLE_trans {a b c : MState} (h1 : tallyLE a b) (h2 : tallyLE b c) :
    tallyLE a c := fun k => Nat.le_trans (h1 k) (h2 k)

theorem inv_initState (T : Nat) : WorkerInv T initState := by
  refine ⟨List.nodup_nil, ?_, rfl, rfl⟩
  intro p hp
  simp [initState] at hp

/-- Invariant preservation and tally monotonicity across the inner job loop. -/
theorem processJobs_inv (env : Env) (T pid iter : Nat) :
    ∀ (jobs : List Nat) (st : MState), WorkerInv T st →
      WorkerInv T (stateOfJobsOut (processJobs env T pid iter jobs st)) ∧
      tallyLE st (stateOfJobsOut (processJobs env T pid iter jobs st)) := by
  intro jobs
  induction jobs with
  | nil =>
    intro st hInv
    exact ⟨hInv, tallyLE_refl st⟩
  | cons id rest ih =>
    intro st hInv
    obtain ⟨hnd, hbd, hsum, hiss⟩ := hInv
    cases hfj : env.fullJob iter id with
    | error e =>
      simp only [processJobs, hfj, stateOfJobsOut]
      exact ⟨⟨hnd, hbd, hsum, hiss⟩, tallyLE_refl st⟩
    | ok j0 =>
      cases hjr : env.jobRefresh iter id with
      | error e =>
        simp only [processJobs, hfj, hjr, stateOfJobsOut]
        exact ⟨⟨hnd, hbd, hsum, hiss⟩, tallyLE_refl st⟩
      | ok job =>
        simp only [processJobs, hfj, hjr]
        by_cases hst : job.status = "failed" ∨ job.status = "canceled"
        · rw [if_pos hst]
          by_cases hlt : getD (setdefault st.tallies job.name) job.name < T
          · rw [if_pos hlt]
            have hndB : ((bump (setdefault st.tallies job.name) job.name).map Prod.fst).Nodup := by
              rw [keys_bump]
              exact keys_setdefault_nodup st.tallies job.name hnd
            have hbdB : ∀ p ∈ bump (setdefault st.tallies job.name) job.name, p.2 ≤ T :=
              bound_bump _ _ _ (bound_setdefault _ _ _ hbd) hlt
            have hsumB :
                ((bump (setdefault st.tallies job.name) job.name).map Prod.snd).sum =
                  (st.tallies.map Prod.snd).sum + 1 := by
              rw [sum_bump _ _ (hasKey_setdefault_self st.tallies job.name), sum_setdefault]
            have hle : ∀ k, getD st.tallies k ≤
                getD (bump (setdefault st.tallies job.name) job.name) k := by
              intro k
              calc getD st.tallies k
                  = getD (setdefault st.tallies job.name) k :=
                    (getD_setdefault st.tallies job.name k).symm
                _ ≤ getD (bump (setdefault st.tallies job.name) job.name) k :=
                    getD_le_bump _ _ _
            cases hr : env.retryJob iter id with
            | error e =>
              simp only [hr, stateOfJobsOut]
              exact ⟨⟨hndB, hbdB, by simp [hsumB, hsum], by simp [hiss]⟩, hle⟩
            | ok u =>
              simp only [hr]
              have hInvR : WorkerInv T
                  { st with tallies := bump (setdefault st.tallies job.name) job.name,
                            retries := st.retries + 1, issued := st.issued + 1,
                            sleeps := st.sleeps + 1 } :=
                ⟨hndB, hbdB, by simp [hsumB, hsum], by simp [hiss]⟩
              obtain ⟨hI, hT⟩ := ih _ hInvR
              exact ⟨hI, fun k => Nat.le_trans (hle k) (hT k)⟩
          · rw [if_neg hlt]
            simp only [stateOfJobsOut]
            refine ⟨⟨keys_setdefault_nodup st.tallies job.name hnd,
                     bound_setdefault _ _ _ hbd,
                     by simpa [sum_setdefault] using hsum, hiss⟩, ?_⟩
            intro k
            exact Nat.le_of_eq (getD_setdefault st.tallies job.name k).symm
        · rw [if_neg hst]
          exact ih st ⟨hnd, hbd, hsum, hiss⟩

/-- Invariant preservation and tally monotonicity across one poll iteration. -/
theorem iterStep_inv (env : Env) (T pid iter : Nat) (st : MState)
    (hInv : WorkerInv T st) :
    WorkerInv T (stateOfIterOut (iterStep env T pid iter st)) ∧
    tallyLE st (stateOfIterOut (iterStep env T pid iter st)) := by
  cases hrs : env.refreshStatus iter with
  | error e =>
    simp only [iterStep, hrs, stateOfIterOut]
    exact ⟨hInv, tallyLE_refl st⟩
  | ok status =>
    cases hlj : env.listJobs iter with
    | error e =>
      simp only [iterStep, hrs, hlj, stateOfIterOut]
      exact ⟨hInv, tallyLE_refl st⟩
    | ok jobIds =>
      by_cases hsc : status = "success"
      · simp only [iterStep, hrs, hlj, if_pos hsc, stateOfIterOut]
        exact ⟨hInv, tallyLE_refl st⟩
      · simp only [iterStep, hrs, hlj, if_neg hsc]
        obtain ⟨hI, hT⟩ := processJobs_inv env T pid iter jobIds st hInv
        cases hpj : processJobs env T pid iter jobIds st with
        | raised e st' =>
          rw [hpj] at hI hT
          simp only [stateOfJobsOut] at hI hT
          simp only [stateOfIterOut]
          exact ⟨hI, hT⟩
        | broke st' =>
          rw [hpj] at hI hT
          simp only [stateOfJobsOut] at hI hT
          simp only [stateOfIterOut]
          exact ⟨hI, hT⟩
        | done st' =>
          rw [hpj] at hI hT
          simp only [stateOfJobsOut] at hI hT
          by_cases hterm : status = "success" ∨ status = "failed" ∨ status = "canceled"
          · simp only [if_pos hterm, stateOfIterOut]
            exact ⟨hI, hT⟩
          · simp only [if_neg hterm, stateOfIterOut]
            exact ⟨⟨hI.1, hI.2.1, hI.2.2.1, hI.2.2.2⟩, hT⟩

/-- Invariant preservation and tally monotonicity across the whole loop. -/
theorem monitorLoop_inv (env : Env) (T pid : Nat) :
    ∀ (fuel iter : Nat) (st : MState), WorkerInv T st →
      WorkerInv T (stateOfOutcome (monitorLoop env T pid fuel iter st)) ∧
      tallyLE st (stateOfOutcome (monitorLoop env T pid fuel iter st)) := by
  intro fuel
  induction fuel with
  | zero =>
    intro iter st hInv
    exact ⟨hInv, tallyLE_refl st⟩
  | succ fuel ih =>
    intro iter st hInv
    obtain ⟨hI, hT⟩ := iterStep_inv env T pid iter st hInv
    cases his : iterStep env T pid iter st with
    | success st' =>
      rw [his] at hI hT
      simp only [stateOfIterOut] at hI hT
      simp only [monitorLoop, his, stateOfOutcome]
      exact ⟨hI, hT⟩
    | broke st' =>
      rw [his] at hI hT
      simp only [stateOfIterOut] at hI hT
      simp only [monitorLoop, his, stateOfOutcome]
      exact ⟨hI, hT⟩
    | exn e st' =>
      rw [his] at hI hT
      simp only [stateOfIterOut] at hI hT
      simp only [monitorLoop, his, stateOfOutcome]
      exact ⟨hI, hT⟩
    | cont st' slept =>
      rw [his] at hI hT
      simp only [stateOfIterOut] at hI hT
      simp only [monitorLoop, his]
      obtain ⟨hI', hT'⟩ := ih (iter + 1) st' hI
      exact ⟨hI', fun k => Nat.le_trans (hT k) (hT' k)⟩

/-- Helper: the two-element trace of a terminating iteration satisfies all
three trace properties. -/
theorem pairTraceProps (T : Nat) (st st' : MState) (hInv : WorkerInv T st)
    (hI : WorkerInv T st') (hT : tallyLE st st') :
    (∀ s ∈ [st, st'], WorkerInv T s) ∧ (∀ s ∈ [st, st'], tallyLE st s) ∧
    List.Pairwise tallyLE [st, st'] := by
  refine ⟨?_, ?_, ?_⟩
  · intro s hs
    simp only [List.mem_cons, List.mem_singleton, List.not_mem_nil, or_false] at hs
    rcases hs with rfl | rfl
    · exact hInv
    · exact hI
  · intro s hs
    simp only [List.mem_cons, List.mem_singleton, List.not_mem_nil, or_false] at hs
    rcases hs with rfl | rfl
    · exact tallyLE_refl s
    · exact hT
  · refine List.Pairwise.cons ?_ (List.Pairwise.cons ?_ List.Pairwise.nil)
    · intro s hs
      simp only [List.mem_singleton] at hs
      subst hs
      exact hT
    · intro s hs
      exact absurd hs (List.not_mem_nil s)

/-- Along the iteration trace: every state satisfies the invariant, every state
dominates the entry state's tallies, and tallies are pairwise monotone. -/
theorem runTrace_inv (env : Env) (T pid : Nat) :
    ∀ (fuel iter : Nat) (st : MState), WorkerInv T st →
      (∀ s ∈ runTrace env T pid fuel iter st, WorkerInv T s) ∧
      (∀ s ∈ runTrace env T pid fuel iter st, tallyLE st s) ∧
      List.Pairwise tallyLE (runTrace env T pid fuel iter st) := by
  intro fuel
  induction fuel with
  | zero =>
    intro iter st hInv
    refine ⟨?_, ?_, ?_⟩
    · intro s hs
      simp only [runTrace, List.mem_singleton] at hs
      subst hs; exact hInv
    · intro s hs
      simp only [runTrace, List.mem_singleton] at hs
      subst hs; exact tallyLE_refl _
    · simp [runTrace]
  | succ fuel ih =>
    intro iter st hInv
    obtain ⟨hI, hT⟩ := iterStep_inv env T pid iter st hInv
    cases his : iterStep env T pid iter st with
    | success st' =>
      rw [his] at hI hT
      simp only [stateOfIterOut] at hI hT
      simp only [runTrace, his]
      exact pairTraceProps T st st' hInv hI hT
    | broke st' =>
      rw [his] at hI hT
      simp only [stateOfIterOut] at hI hT
      simp only [runTrace, his]
      exact pairTraceProps T st st' hInv hI hT
    | exn e st' =>
      rw [his] at hI hT
      simp only [stateOfIterOut] at hI hT
      simp only [runTrace, his]
      exact pairTraceProps T st st' hInv hI hT
    | cont st' slept =>
      rw [his] at hI hT
      simp only [stateOfIterOut] at hI hT
      simp only [runTrace, his]
      obtain ⟨ihI, ihT, ihP⟩ := ih (iter + 1) st' hI
      refine ⟨?_, ?_, ?_⟩
      · intro s hs
        rcases List.mem_cons.1 hs with hs | hs
        · subst hs; exact hInv
        · exact ihI s hs
      · intro s hs
        rcases List.mem_cons.1 hs with hs | hs
        · subst hs; exact tallyLE_refl _
        · exact fun k => Nat.le_trans (hT k) (ihT s hs k)
      · refine List.Pairwise.cons ?_ ihP
        intro s hs
        exact fun k => Nat.le_trans (hT k) (ihT s hs k)

/-! ### Lemmas about the embedded string operations -/

theorem isPrefixOf_append_self (p s : List Char) : p.isPrefixOf (p ++ s) = true := by
  induction p with
  | nil => simp [List.isPrefixOf]
  | cons a q ih => simp [List.isPrefixOf, ih]

theorem isPrefixOf_take (p : List Char) :
    ∀ (s : List Char) (n : Nat), p.isPrefixOf s = true → p.length ≤ n →
      p.isPrefixOf (s.take n) = true := by
  induction p with
  | nil => intro s n _ _; simp [List.isPrefixOf]
  | cons a q ih =>
    intro s n hp hn
    cases s with
    | nil => simp [List.isPrefixOf] at hp
    | cons b s' =>
      simp only [List.isPrefixOf, Bool.and_eq_true] at hp
      cases n with
      | zero => simp [List.length] at hn
      | succ n' =>
        simp only [List.take_succ_cons, List.isPrefixOf, Bool.and_eq_true]
        refine ⟨hp.1, ih s' n' hp.2 ?_⟩
        simpa [List.length] using hn

theorem occursIn_of_isPrefixOf (p s : List Char) (hp : p ≠ [])
    (h : p.isPrefixOf s = true) : occursIn p s = true := by
  cases s with
  | nil =>
    cases p with
    | nil => exact absurd rfl hp
    | cons a q => simp [List.isPrefixOf] at h
  | cons c s' => simp [occursIn, h]

theorem occursIn_append_self (p x : List Char) : occursIn p (x ++ p) = true := by
  induction x with
  | nil =>
    cases p with
    | nil => rfl
    | cons a q =>
      have := isPrefixOf_append_self (a :: q) []
      rw [List.append_nil] at this
      simp [occursIn, this]
  | cons c x' ih => simp [occursIn, ih]

theorem listReplaceF_not_occursIn (p r : List Char) :
    ∀ (fuel : Nat) (s : List Char), occursIn p s = false →
      listReplaceF p r fuel s = s := by
  intro fuel
  induction fuel with
  | zero =>
    intro s _
    cases s with
    | nil => rfl
    | cons c s' => rfl
  | succ f ih =>
    intro s hs
    cases s with
    | nil => rfl
    | cons c s' =>
      simp only [occursIn, Bool.or_eq_false_iff] at hs
      simp only [listReplaceF, hs.1, Bool.false_eq_true, if_false]
      rw [ih s' hs.2]

theorem listReplaceF_nil (p r : List Char) (fuel : Nat) :
    listReplaceF p r fuel [] = [] := by
  cases fuel <;> rfl

theorem listReplaceF_strip (p : List Char) (hp : p ≠ []) :
    ∀ (fuel : Nat) (s : List Char), occursIn p s = false →
      (p ++ s).length ≤ fuel → listReplaceF p [] fuel (p ++ s) = s := by
  intro fuel s hs hf
  cases p with
  | nil => exact absurd rfl hp
  | cons a q =>
    cases fuel with
    | zero => simp [List.length] at hf
    | succ f =>
      have hpre : (a :: q).isPrefixOf (a :: (q ++ s)) = true := by
        have := isPrefixOf_append_self (a :: q) s
        simpa using this
      have hgoal : listReplaceF (a :: q) [] (f + 1) (a :: (q ++ s)) = s := by
        simp only [listReplaceF, hpre, if_true, List.nil_append, List.append_eq]
        have hdrop : List.drop (a :: q).length (a :: (q ++ s)) = s := by
          have := List.drop_left (a :: q) s
          simpa using this
        rw [hdrop]
        exact listReplaceF_not_occursIn (a :: q) [] f s hs
      simpa using hgoal

theorem listReplaceF_chop_suffix (p r : List Char) (hp : p ≠ []) :
    ∀ (m : List Char) (fuel : Nat),
      occursIn p (m ++ p.take (p.length - 1)) = false →
      (m ++ p).length ≤ fuel → listReplaceF p r fuel (m ++ p) = m ++ r := by
  intro m
  induction m with
  | nil =>
    intro fuel _ hf
    cases p with
    | nil => exact absurd rfl hp
    | cons a q =>
      cases fuel with
      | zero => simp [List.length] at hf
      | succ f =>
        have hpre : (a :: q).isPrefixOf (a :: q) = true := by
          have := isPrefixOf_append_self (a :: q) []
          simpa using this
        have hgoal : listReplaceF (a :: q) r (f + 1) (a :: q) = r := by
          simp only [listReplaceF, hpre, if_true, List.append_eq]
          rw [show (a :: q) = (a :: q) ++ ([] : List Char) by simp] 
          have hdrop : List.drop (a :: q).length ((a :: q) ++ ([] : List Char)) = [] :=
            List.drop_left (a :: q) []
          simp only [List.append_nil] at hdrop ⊢
          rw [hdrop, listReplaceF_nil, List.append_nil]
        simpa using hgoal
  | cons c m' ih =>
    intro fuel h hf
    cases fuel with
    | zero => simp [List.length] at hf
    | succ f =>
      have hplen : 1 ≤ p.length := by
        cases p with
        | nil => exact absurd rfl hp
        | cons a q => simp
      have hcond : p.isPrefixOf (c :: (m' ++ p)) = false := by
        by_contra hc
        have hc' : p.isPrefixOf (c :: (m' ++ p)) = true := by
          simpa using Bool.of_not_eq_false hc
        have htk : p.isPrefixOf ((c :: (m' ++ p)).take ((c :: m').length + (p.length - 1)))
            = true := by
          refine isPrefixOf_take p _ _ hc' ?_
          simp
          omega
        have heq : (c :: (m' ++ p)).take ((c :: m').length + (p.length - 1)) =
            (c :: m') ++ p.take (p.length - 1) := by
          have := @List.take_append Char (c :: m') p (p.length - 1)
          simpa using this
        rw [heq] at htk
        have hocc : occursIn p ((c :: m') ++ p.take (p.length - 1)) = true := by
          rw [List.cons_append]
          rw [List.cons_append] at htk
          simp [occursIn, htk]
        rw [show (c :: m') ++ p.take (p.length - 1) = c :: m' ++ p.take (p.length - 1)
          from List.cons_append c m' _] at hocc
        rw [h] at hocc
        exact Bool.false_ne_true hocc
      have h' : occursIn p (m' ++ p.take (p.length - 1)) = false := by
        rw [List.cons_append, occursIn, Bool.or_eq_false_iff] at h
        exact h.2
      have hgoal : listReplaceF p r (f + 1) (c :: (m' ++ p)) = c :: (m' ++ r) := by
        simp only [listReplaceF, hcond, Bool.false_eq_true, if_false, List.append_eq]
        rw [ih f h' (by simp at hf ⊢; omega)]
      simpa using hgoal

theorem isSuffixOf_append_self (p s : List Char) : p.isSuffixOf (s ++ p) = true := by
  simp only [List.isSuffixOf, List.reverse_append]
  exact isPrefixOf_append_self p.reverse s.reverse

/-! ### Further helper lemmas -/

theorem sum_le_length_mul (l : List Nat) (n : Nat) (h : ∀ x ∈ l, x ≤ n) :
    l.sum ≤ l.length * n := by
  induction l with
  | nil => simp
  | cons a t ih =>
    simp only [List.sum_cons, List.length_cons]
    have ht := ih (fun x hx => h x (List.mem_cons_of_mem a hx))
    have ha := h a (List.mem_cons_self a t)
    calc a + t.sum ≤ n + t.length * n := Nat.add_le_add ha ht
      _ = (t.length + 1) * n := by ring

theorem strContains_append_self (x e : String) : strContains e (x ++ e) = true := by
  simp only [strContains, String.toList, String.data_append]
  exact occursIn_append_self e.data x.data

/-- A job loop over jobs none of which is failed or canceled finishes with the
state unchanged. -/
theorem processJobs_no_failed (env : Env) (T pid iter : Nat) :
    ∀ (js : List Nat) (st : MState),
      (∀ id ∈ js, ∃ j0 j, env.fullJob iter id = Except.ok j0 ∧
        env.jobRefresh iter id = Except.ok j ∧
        j.status ≠ "failed" ∧ j.status ≠ "canceled") →
      processJobs env T pid iter js st = JobsOut.done st := by
  intro js
  induction js with
  | nil => intro st _; rfl
  | cons id rest ih =>
    intro st h
    obtain ⟨j0, j, hfj, hjr, hnf, hnc⟩ := h id (List.mem_cons_self id rest)
    have hcond : ¬(j.status = "failed" ∨ j.status = "canceled") := by
      rintro (hc | hc)
      · exact hnf hc
      · exact hnc hc
    simp only [processJobs, hfj, hjr, if_neg hcond]
    exact ih st (fun i hi => h i (List.mem_cons_of_mem id hi))

/-! ### Claim theorems -/

/-- Claim C1: for every job observed during one worker's monitoring session,
the failure tally is monotonically non-decreasing along the run's iteration
trace, and no tally ever exceeds the configured threshold. -/
theorem C1_tally_monotone_and_bounded (env : Env) (T pid fuel : Nat) :
    (∀ s ∈ runTrace env T pid fuel 0 initState, ∀ p ∈ s.tallies, p.2 ≤ T) ∧
    List.Pairwise tallyLE (runTrace env T pid fuel 0 initState) := by
  obtain ⟨hI, _, hP⟩ := runTrace_inv env T pid fuel 0 initState (inv_initState T)
  exact ⟨fun s hs => (hI s hs).2.1, hP⟩

/-- Witness for C1 at a concrete oracle. -/
theorem C1_tally_monotone_and_bounded_witness :
    (∀ s ∈ runTrace envRetryThenSuccess 3 7 5 0 initState, ∀ p ∈ s.tallies, p.2 ≤ 3) ∧
    List.Pairwise tallyLE (runTrace envRetryThenSuccess 3 7 5 0 initState) :=
  C1_tally_monotone_and_bounded envRetryThenSuccess 3 7 5

/-- Claim C4: when the loop exits through the success branch and no job's
tally ever reached the threshold (equivalently, by C1-monotonicity, all final
tallies are below it), the worker result is success and its retry count is at
most (threshold − 1) times the number of distinct jobs ever observed failed or
canceled — the tally entries, whose keys are distinct. -/
theorem C4_success_retry_bound (gu repo : String) (env : Env) (T pid fuel : Nat)
    (rest : List Nat) (st : MState)
    (hgp : env.getProject = Except.ok ())
    (hpl : env.pipelines = Except.ok (pid :: rest))
    (hloop : monitorLoop env T pid fuel 0 initState = Outcome.success st)
    (hlt : ∀ p ∈ st.tallies, p.2 < T) :
    monitor_repository gu repo env T fuel =
      some { repo := repo, success := true, failed_pipelines := [],
             last_pipeline_url :=
               some (gu ++ "/" ++ repo ++ "/pipelines/" ++ toString pid),
             retries := st.retries } ∧
    st.retries ≤ (T - 1) * st.tallies.length ∧
    (st.tallies.map Prod.fst).Nodup := by
  have hInv := (monitorLoop_inv env T pid fuel 0 initState (inv_initState T)).1
  rw [hloop] at hInv
  simp only [stateOfOutcome] at hInv
  obtain ⟨hnd, _, hsum, _⟩ := hInv
  refine ⟨?_, ?_, hnd⟩
  · simp only [monitor_repository, hgp, hpl, hloop, resultOfOutcome]
  · rw [hsum]
    have hb : ∀ x ∈ st.tallies.map Prod.snd, x ≤ T - 1 := by
      intro x hx
      obtain ⟨p, hp, hpx⟩ := List.mem_map.1 hx
      have := hlt p hp
      omega
    have := sum_le_length_mul (st.tallies.map Prod.snd) (T - 1) hb
    simpa [Nat.mul_comm] using this

/-- Witness for C4: one distinct failing job, one retry, threshold 3. -/
theorem C4_success_retry_bound_witness :
    monitor_repository "https://gitlab.com" "org/app" envRetryThenSuccess 3 5 =
      some { repo := "org/app", success := true, failed_pipelines := [],
             last_pipeline_url :=
               some ("https://gitlab.com" ++ "/" ++ "org/app" ++ "/pipelines/" ++ toString 7),
             retries := MState.retries ⟨[("build", 1)], 1, [], 2, 1⟩ } ∧
    MState.retries ⟨[("build", 1)], 1, [], 2, 1⟩ ≤
      (3 - 1) * (MState.tallies ⟨[("build", 1)], 1, [], 2, 1⟩).length ∧
    ((MState.tallies ⟨[("build", 1)], 1, [], 2, 1⟩).map Prod.fst).Nodup :=
  C4_success_retry_bound "https://gitlab.com" "org/app" envRetryThenSuccess 3 7 5 []
    ⟨[("build", 1)], 1, [], 2, 1⟩ rfl rfl (by decide) (by decide)

/-- Claim C8: with threshold 0, a first failed/canceled job observation (entry
state: empty tally map, zero retries) immediately terminates the loop as a
failure, with zero retries both in the loop state and in the reported result. -/
theorem C8_threshold_zero_first_failure
    (gu repo : String) (env : Env) (pid fuel iter : Nat) (st : MState)
    (s : String) (id : Nat) (rest : List Nat) (j0 job : Job)
    (hrs : env.refreshStatus iter = Except.ok s)
    (hns : s ≠ "success")
    (hlj : env.listJobs iter = Except.ok (id :: rest))
    (hfj : env.fullJob iter id = Except.ok j0)
    (hjr : env.jobRefresh iter id = Except.ok job)
    (hst : job.status = "failed" ∨ job.status = "canceled")
    (htal : st.tallies = [])
    (hret : st.retries = 0) :
    monitorLoop env 0 pid (fuel + 1) iter st =
      Outcome.failure { st with
        tallies := [(job.name, 0)]
        failedPipelines := st.failedPipelines ++ [thresholdMsg pid job.name 0] } ∧
    ∃ r, resultOfOutcome gu repo pid (monitorLoop env 0 pid (fuel + 1) iter st) = some r ∧
      r.success = false ∧ r.retries = 0 := by
  have hpj : processJobs env 0 pid iter (id :: rest) st =
      JobsOut.broke { st with
        tallies := [(job.name, 0)]
        failedPipelines := st.failedPipelines ++ [thresholdMsg pid job.name 0] } := by
    have hsd : setdefault st.tallies job.name = [(job.name, 0)] := by
      rw [htal]; rfl
    have hguard : ¬ getD [(job.name, 0)] job.name < 0 := by omega
    simp only [processJobs, hfj, hjr, if_pos hst, hsd, if_neg hguard]
  have hloop : monitorLoop env 0 pid (fuel + 1) iter st =
      Outcome.failure { st with
        tallies := [(job.name, 0)]
        failedPipelines := st.failedPipelines ++ [thresholdMsg pid job.name 0] } := by
    simp only [monitorLoop, iterStep, hrs, hlj, if_neg hns, hpj]
  refine ⟨hloop, ?_⟩
  rw [hloop]
  simp only [resultOfOutcome]
  refine ⟨_, rfl, rfl, ?_⟩
  simpa using hret

/-- Witness for C8 at a concrete oracle. -/
theorem C8_threshold_zero_first_failure_witness :
    monitorLoop envFirstFailure 0 9 (4 + 1) 0 initState =
      Outcome.failure { initState with
        tallies := [("deploy", 0)]
        failedPipelines := initState.failedPipelines ++ [thresholdMsg 9 "deploy" 0] } ∧
    ∃ r, resultOfOutcome "u" "org/app" 9 (monitorLoop envFirstFailure 0 9 (4 + 1) 0 initState) =
      some r ∧ r.success = false ∧ r.retries = 0 :=
  C8_threshold_zero_first_failure "u" "org/app" envFirstFailure 9 4 0 initState
    "running" 4 [] ⟨"deploy", "created"⟩ ⟨"deploy", "failed"⟩
    rfl (by decide) rfl rfl rfl (Or.inl rfl) rfl rfl

/-- Claim C10: while the refreshed status is `failed` or `canceled` and no
listed job is in failed/canceled status, each iteration leaves the state
untouched and does not sleep (`cont st false`), so the loop spins without ever
pausing until its fuel runs out, with `sleeps` still at its entry value. -/
theorem C10_tight_loop_no_backoff (env : Env) (T pid : Nat)
    (hs : ∀ it, ∃ s, env.refreshStatus it = Except.ok s ∧
      (s = "failed" ∨ s = "canceled"))
    (hj : ∀ it, ∃ js, env.listJobs it = Except.ok js ∧
      ∀ id ∈ js, ∃ j0 j, env.fullJob it id = Except.ok j0 ∧
        env.jobRefresh it id = Except.ok j ∧
        j.status ≠ "failed" ∧ j.status ≠ "canceled") :
    ∀ (fuel iter : Nat) (st : MState),
      iterStep env T pid iter st = IterOut.cont st false ∧
      monitorLoop env T pid fuel iter st = Outcome.fuelOut st := by
  have hstep : ∀ (iter : Nat) (st : MState),
      iterStep env T pid iter st = IterOut.cont st false := by
    intro iter st
    obtain ⟨s, hrs, hsv⟩ := hs iter
    obtain ⟨js, hlj, hgood⟩ := hj iter
    have hns : s ≠ "success" := by
      rcases hsv with rfl | rfl <;> decide
    have hterm : s = "success" ∨ s = "failed" ∨ s = "canceled" := by
      rcases hsv with rfl | rfl
      · exact Or.inr (Or.inl rfl)
      · exact Or.inr (Or.inr rfl)
    simp only [iterStep, hrs, hlj, if_neg hns,
      processJobs_no_failed env T pid iter js st hgood, if_pos hterm]
  intro fuel
  induction fuel with
  | zero =>
    intro iter st
    exact ⟨hstep iter st, rfl⟩
  | succ fuel ih =>
    intro iter st
    refine ⟨hstep iter st, ?_⟩
    simp only [monitorLoop, hstep iter st]
    exact (ih (iter + 1) st).2

/-- Witness for C10 at a concrete oracle: five fuel, no sleep, state pinned. -/
theorem C10_tight_loop_no_backoff_witness :
    iterStep envTightLoop 3 7 0 initState = IterOut.cont initState false ∧
    monitorLoop envTightLoop 3 7 5 0 initState = Outcome.fuelOut initState :=
  C10_tight_loop_no_backoff envTightLoop 3 7
    (fun _ => ⟨"failed", rfl, Or.inl rfl⟩)
    (fun _ => ⟨[], rfl, fun id hid => absurd hid (List.not_mem_nil id)⟩)
    5 0 initState

/-- Counterexample to C2 as stated: with threshold 1, job `build`'s tally
*reaches* the threshold at iteration 0 (a retry is issued at that very
moment), yet the worker goes on and declares the repository's pipeline
*successful* — no failure is declared and a retry was issued at/after the
reach moment. -/
theorem C2_counterexample :
    (∃ s ∈ runTrace envRetryThenSuccess 1 7 5 0 initState,
      getD s.tallies "build" = 1) ∧
    monitor_repository "https://gitlab.com" "org/app" envRetryThenSuccess 1 5 =
      some { repo := "org/app", success := true, failed_pipelines := [],
             last_pipeline_url := some "https://gitlab.com/org/app/pipelines/7",
             retries := 1 } := by decide

/-- Claim C2 as amended: when a job is *observed* in failed/canceled status
with its tally already at (or above) the threshold, the worker immediately
declares the repository's pipeline failed with a reason citing that job and
the threshold, and issues no further retries for that repository (the reported
retry count equals the count at the moment of that observation). -/
theorem C2_threshold_observation_declares_failure
    (gu repo : String) (env : Env) (T pid fuel iter : Nat) (st : MState)
    (s : String) (id : Nat) (rest : List Nat) (j0 job : Job)
    (hrs : env.refreshStatus iter = Except.ok s)
    (hns : s ≠ "success")
    (hlj : env.listJobs iter = Except.ok (id :: rest))
    (hfj : env.fullJob iter id = Except.ok j0)
    (hjr : env.jobRefresh iter id = Except.ok job)
    (hst : job.status = "failed" ∨ job.status = "canceled")
    (hT : T ≤ getD st.tallies job.name) :
    monitorLoop env T pid (fuel + 1) iter st =
      Outcome.failure { st with
        tallies := setdefault st.tallies job.name
        failedPipelines := st.failedPipelines ++ [thresholdMsg pid job.name T] } ∧
    ∃ r, resultOfOutcome gu repo pid (monitorLoop env T pid (fuel + 1) iter st) =
        some r ∧
      r.success = false ∧ r.retries = st.retries ∧
      r.failed_pipelines = st.failedPipelines ++ [thresholdMsg pid job.name T] := by
  have hguard : ¬ getD (setdefault st.tallies job.name) job.name < T := by
    rw [getD_setdefault]
    omega
  have hpj : processJobs env T pid iter (id :: rest) st =
      JobsOut.broke { st with
        tallies := setdefault st.tallies job.name
        failedPipelines := st.failedPipelines ++ [thresholdMsg pid job.name T] } := by
    simp only [processJobs, hfj, hjr, if_pos hst, if_neg hguard]
  have hloop : monitorLoop env T pid (fuel + 1) iter st =
      Outcome.failure { st with
        tallies := setdefault st.tallies job.name
        failedPipelines := st.failedPipelines ++ [thresholdMsg pid job.name T] } := by
    simp only [monitorLoop, iterStep, hrs, hlj, if_neg hns, hpj]
  refine ⟨hloop, ?_⟩
  rw [hloop]
  have hne : st.failedPipelines ++ [thresholdMsg pid job.name T] ≠ [] := by simp
  simp only [resultOfOutcome, if_neg hne]
  exact ⟨_, rfl, rfl, rfl, rfl⟩

/-- Witness for the amended C2: job `deploy` observed failed with its tally
already at threshold 3. -/
theorem C2_threshold_observation_declares_failure_witness :
    monitorLoop envThresholdObserved 3 9 (4 + 1) 0 ⟨[("deploy", 3)], 3, [], 0, 3⟩ =
      Outcome.failure { (⟨[("deploy", 3)], 3, [], 0, 3⟩ : MState) with
        tallies := setdefault [("deploy", 3)] "deploy"
        failedPipelines := [] ++ [thresholdMsg 9 "deploy" 3] } ∧
    ∃ r, resultOfOutcome "u" "org/app" 9
        (monitorLoop envThresholdObserved 3 9 (4 + 1) 0 ⟨[("deploy", 3)], 3, [], 0, 3⟩) =
        some r ∧
      r.success = false ∧ r.retries = 3 ∧
      r.failed_pipelines = [] ++ [thresholdMsg 9 "deploy" 3] :=
  C2_threshold_observation_declares_failure "u" "org/app" envThresholdObserved 3 9 4 0
    ⟨[("deploy", 3)], 3, [], 0, 3⟩ "failed" 2 [] ⟨"deploy", "created"⟩ ⟨"deploy", "failed"⟩
    rfl (by decide) rfl rfl rfl (Or.inl rfl) (by decide)

/-- Counterexample to C3 as stated: when the full-job fetch
(`project.jobs.get`) raises `"BOOM"`, the worker does stop with a failure
result, but its failure reason is the generic `"Pipeline 7 did not succeed"`,
which does not contain the error's message. -/
theorem C3_counterexample :
    monitor_repository "https://gitlab.com" "org/app" envJobFetchError 3 5 =
      some { repo := "org/app", success := false,
             failed_pipelines := ["Pipeline 7 did not succeed"],
             last_pipeline_url := none, retries := 0 } ∧
    strContains "BOOM" "Pipeline 7 did not succeed" = false := by decide

/-- Claim C3 as amended: no error ever escapes the worker — every
collaborator failure yields a `WorkerResult`.  Errors from the initial project
fetch, the pipeline listing, the status refresh, the job listing, and the
full-job *refresh* produce the reason `"Exception: <message>"`, which contains
the error message; errors from the full-job *fetch* and from retry issuance
are caught inside the job loop and produce a failure result whose reason is
the generic/accumulated text, without the error message. -/
theorem C3_errors_yield_results
    (gu repo : String) (env : Env) (T pid fuel iter : Nat) (st : MState)
    (e s : String) (id : Nat) (rest : List Nat) (j0 job : Job) :
    (env.getProject = Except.error e →
      monitor_repository gu repo env T fuel =
        some { repo := repo, success := false,
               failed_pipelines := ["Exception: " ++ e],
               last_pipeline_url := none, retries := 0 } ∧
      strContains e ("Exception: " ++ e) = true) ∧
    (env.getProject = Except.ok () → env.pipelines = Except.error e →
      monitor_repository gu repo env T fuel =
        some { repo := repo, success := false,
               failed_pipelines := ["Exception: " ++ e],
               last_pipeline_url := none, retries := 0 }) ∧
    (env.refreshStatus iter = Except.error e →
      monitorLoop env T pid (fuel + 1) iter st = Outcome.exn e st ∧
      resultOfOutcome gu repo pid (Outcome.exn e st) =
        some { repo := repo, success := false,
               failed_pipelines := ["Exception: " ++ e],
               last_pipeline_url := none, retries := 0 }) ∧
    (env.refreshStatus iter = Except.ok s → env.listJobs iter = Except.error e →
      monitorLoop env T pid (fuel + 1) iter st = Outcome.exn e st) ∧
    (env.refreshStatus iter = Except.ok s → s ≠ "success" →
     env.listJobs iter = Except.ok (id :: rest) →
     env.fullJob iter id = Except.ok j0 → env.jobRefresh iter id = Except.error e →
      monitorLoop env T pid (fuel + 1) iter st = Outcome.exn e st) ∧
    (env.refreshStatus iter = Except.ok s → s ≠ "success" →
     env.listJobs iter = Except.ok (id :: rest) →
     env.fullJob iter id = Except.error e →
      monitorLoop env T pid (fuel + 1) iter st = Outcome.failure st ∧
      ∃ r, resultOfOutcome gu repo pid (Outcome.failure st) = some r ∧
        r.success = false ∧ r.retries = st.retries) ∧
    (env.refreshStatus iter = Except.ok s → s ≠ "success" →
     env.listJobs iter = Except.ok (id :: rest) →
     env.fullJob iter id = Except.ok j0 → env.jobRefresh iter id = Except.ok job →
     (job.status = "failed" ∨ job.status = "canceled") →
     getD st.tallies job.name < T → env.retryJob iter id = Except.error e →
      ∃ st', monitorLoop env T pid (fuel + 1) iter st = Outcome.failure st' ∧
        st'.retries = st.retries + 1 ∧
        ∃ r, resultOfOutcome gu repo pid (Outcome.failure st') = some r ∧
          r.success = false) := by
  refine ⟨?_, ?_, ?_, ?_, ?_, ?_, ?_⟩
  · intro h
    constructor
    · simp only [monitor_repository, h]
    · exact strContains_append_self "Exception: " e
  · intro h1 h2
    simp only [monitor_repository, h1, h2]
  · intro h
    have : monitorLoop env T pid (fuel + 1) iter st = Outcome.exn e st := by
      simp only [monitorLoop, iterStep, h]
    exact ⟨this, rfl⟩
  · intro h1 h2
    simp only [monitorLoop, iterStep, h1, h2]
  · intro h1 h2 h3 h4 h5
    simp only [monitorLoop, iterStep, h1, h3, if_neg h2, processJobs, h4, h5]
  · intro h1 h2 h3 h4
    have hloop : monitorLoop env T pid (fuel + 1) iter st = Outcome.failure st := by
      simp only [monitorLoop, iterStep, h1, h3, if_neg h2, processJobs, h4]
    refine ⟨hloop, ?_⟩
    simp only [resultOfOutcome]
    split
    · exact ⟨_, rfl, rfl, rfl⟩
    · exact ⟨_, rfl, rfl, rfl⟩
  · intro h1 h2 h3 h4 h5 h6 h7 h8
    have hguard : getD (setdefault st.tallies job.name) job.name < T := by
      rw [getD_setdefault]
      exact h7
    have hpj : processJobs env T pid iter (id :: rest) st =
        JobsOut.broke { st with
          tallies := bump (setdefault st.tallies job.name) job.name
          retries := st.retries + 1
          issued := st.issued + 1 } := by
      simp only [processJobs, h4, h5, if_pos h6, if_pos hguard, h8]
    have hloop : monitorLoop env T pid (fuel + 1) iter st =
        Outcome.failure { st with
          tallies := bump (setdefault st.tallies job.name) job.name
          retries := st.retries + 1
          issued := st.issued + 1 } := by
      simp only [monitorLoop, iterStep, h1, h3, if_neg h2, hpj]
    refine ⟨_, hloop, rfl, ?_⟩
    simp only [resultOfOutcome]
    split
    · exact ⟨_, rfl, rfl⟩
    · exact ⟨_, rfl, rfl⟩

/-- Witness for the amended C3: the status refresh raising `"NET"` at
iteration 1 makes the worker report `"Exception: NET"`. -/
theorem C3_errors_yield_results_witness :
    monitorLoop envRefreshError 3 7 (0 + 1) 1 initState = Outcome.exn "NET" initState ∧
    resultOfOutcome "https://gitlab.com" "org/app" 7 (Outcome.exn "NET" initState) =
      some { repo := "org/app", success := false,
             failed_pipelines := ["Exception: " ++ "NET"],
             last_pipeline_url := none, retries := 0 } :=
  (C3_errors_yield_results "https://gitlab.com" "org/app" envRefreshError 3 7 0 1
    initState "NET" "running" 1 [] ⟨"build", "created"⟩ ⟨"build", "failed"⟩).2.2.1 rfl

/-- Counterexample to C5 as stated: at iteration 0 the worker issues one
retry (final loop state has `retries = 1` and `issued = 1`), then the status
refresh raises at iteration 1; the returned `WorkerResult` reports
`retries = 0`, not the one retry actually issued. -/
theorem C5_counterexample :
    monitorLoop envRefreshError 3 7 5 0 initState =
      Outcome.exn "NET" ⟨[("build", 1)], 1, [], 2, 1⟩ ∧
    monitor_repository "https://gitlab.com" "org/app" envRefreshError 3 5 =
      some { repo := "org/app", success := false,
             failed_pipelines := ["Exception: NET"],
             last_pipeline_url := none, retries := 0 } := by decide

/-- Claim C5 as amended: on the success path and on every loop-break failure
path the reported retry count equals the number of retry calls actually
issued; on the exception path the result hard-codes a retry count of zero,
regardless of how many retries were issued before the error. -/
theorem C5_retry_count_reporting
    (gu repo : String) (env : Env) (T pid fuel : Nat) (rest : List Nat)
    (hgp : env.getProject = Except.ok ())
    (hpl : env.pipelines = Except.ok (pid :: rest)) :
    (∀ st, monitorLoop env T pid fuel 0 initState = Outcome.success st →
      ∃ r, monitor_repository gu repo env T fuel = some r ∧ r.retries = st.issued) ∧
    (∀ st, monitorLoop env T pid fuel 0 initState = Outcome.failure st →
      ∃ r, monitor_repository gu repo env T fuel = some r ∧ r.retries = st.issued) ∧
    (∀ e st, monitorLoop env T pid fuel 0 initState = Outcome.exn e st →
      ∃ r, monitor_repository gu repo env T fuel = some r ∧ r.retries = 0) := by
  refine ⟨?_, ?_, ?_⟩
  · intro st hloop
    have hInv := (monitorLoop_inv env T pid fuel 0 initState (inv_initState T)).1
    rw [hloop] at hInv
    simp only [monitor_repository, hgp, hpl, hloop, resultOfOutcome]
    exact ⟨_, rfl, hInv.2.2.2⟩
  · intro st hloop
    have hInv := (monitorLoop_inv env T pid fuel 0 initState (inv_initState T)).1
    rw [hloop] at hInv
    simp only [monitor_repository, hgp, hpl, hloop, resultOfOutcome]
    split
    · exact ⟨_, rfl, hInv.2.2.2⟩
    · exact ⟨_, rfl, hInv.2.2.2⟩
  · intro e st hloop
    simp only [monitor_repository, hgp, hpl, hloop, resultOfOutcome]
    exact ⟨_, rfl, rfl⟩

/-- Witness for the amended C5 on the success path: one retry issued, one
retry reported. -/
theorem C5_retry_count_reporting_witness :
    ∃ r, monitor_repository "https://gitlab.com" "org/app" envRetryThenSuccess 3 5 =
      some r ∧ r.retries = MState.issued ⟨[("build", 1)], 1, [], 2, 1⟩ :=
  (C5_retry_count_reporting "https://gitlab.com" "org/app" envRetryThenSuccess 3 7 5 []
    rfl rfl).1 ⟨[("build", 1)], 1, [], 2, 1⟩ (by decide)

/-- Counterexample to C6 as stated: the pipeline status is `success`, yet the
job listing *is* fetched — it raises `"JOBSERR"`, and the worker returns an
exception failure instead of the success the claim prescribes. -/
theorem C6_counterexample :
    monitor_repository "https://gitlab.com" "org/app" envSuccessJobsError 3 5 =
      some { repo := "org/app", success := false,
             failed_pipelines := ["Exception: JOBSERR"],
             last_pipeline_url := none, retries := 0 } := by decide

/-- Claim C6 as amended: the job list is fetched on *every* poll iteration,
before the success check.  When the refreshed status is `success` and the job
listing succeeds, the worker records success and stops; when the status is
`success` but the job listing raises, the iteration ends in the exception
path instead. -/
theorem C6_success_checked_after_job_listing
    (env : Env) (T pid iter : Nat) (st : MState) (js : List Nat) (e : String) :
    (env.refreshStatus iter = Except.ok "success" → env.listJobs iter = Except.ok js →
      iterStep env T pid iter st = IterOut.success st) ∧
    (env.refreshStatus iter = Except.ok "success" → env.listJobs iter = Except.error e →
      iterStep env T pid iter st = IterOut.exn e st) := by
  constructor
  · intro h1 h2
    simp [iterStep, h1, h2]
  · intro h1 h2
    simp [iterStep, h1, h2]

/-- Witness for the amended C6 at a concrete oracle. -/
theorem C6_success_checked_after_job_listing_witness :
    iterStep envSuccessNoJobs 3 7 0 initState = IterOut.success initState :=
  (C6_success_checked_after_job_listing envSuccessNoJobs 3 7 0 initState [] "x").1 rfl rfl

/-- Counterexample to C7 as stated: the no-pipeline result's reason string is
`"No pipeline found"` (capital N), not `"no pipeline found"`. -/
theorem C7_counterexample :
    monitor_repository "u" "org/app" envNoPipelines 3 5 =
      some { repo := "org/app", success := false,
             failed_pipelines := ["No pipeline found"],
             last_pipeline_url := none, retries := 0 } ∧
    (monitor_repository "u" "org/app" envNoPipelines 3 5).map
        (fun r => r.failed_pipelines) ≠ some ["no pipeline found"] := by decide

/-- Claim C7 as amended: a repository whose pipeline listing is empty makes
the worker return immediately with a failure result whose reason is
`"No pipeline found"`, a retry count of zero and no pipeline URL. -/
theorem C7_no_pipeline_result (gu repo : String) (env : Env) (T fuel : Nat)
    (hgp : env.getProject = Except.ok ())
    (hpl : env.pipelines = Except.ok []) :
    monitor_repository gu repo env T fuel =
      some { repo := repo, success := false,
             failed_pipelines := ["No pipeline found"],
             last_pipeline_url := none, retries := 0 } := by
  simp only [monitor_repository, hgp, hpl]

/-- Witness for the amended C7 at a concrete oracle. -/
theorem C7_no_pipeline_result_witness :
    monitor_repository "u" "org/app" envNoPipelines 3 5 =
      some { repo := "org/app", success := false,
             failed_pipelines := ["No pipeline found"],
             last_pipeline_url := none, retries := 0 } :=
  C7_no_pipeline_result "u" "org/app" envNoPipelines 3 5 rfl rfl

/-- Counterexample to C9 as stated: `str.replace` removes *every* occurrence
of `".git"`, not just a trailing suffix — on a line whose repository name
itself contains `".git"`, the loader returns `"ns/ax"` while prefix/suffix
stripping would return `"ns/a.gitx"`. -/
theorem C9_counterexample :
    load_repositories "https://gitlab.com" ["https://gitlab.com/ns/a.gitx.git"] =
      ["ns/ax"] ∧
    load_repositories_spec "https://gitlab.com" ["https://gitlab.com/ns/a.gitx.git"] =
      ["ns/a.gitx"] ∧
    load_repositories "https://gitlab.com" ["https://gitlab.com/ns/a.gitx.git"] ≠
      load_repositories_spec "https://gitlab.com" ["https://gitlab.com/ns/a.gitx.git"] := by
  decide

/-- Claim C9 as amended: the loader ignores blank lines and maps each
non-blank line by removing *every* occurrence of the base-URL-plus-slash
string and then *every* occurrence of `".git"` anywhere in the stripped line
(Python `str.replace`), not only a leading prefix and a trailing suffix.  In
the common case — the stripped line is exactly prefix ++ body ++ ".git", the
prefix occurs nowhere in the remainder, and ".git" occurs in the body-plus-
".gi" region only as the trailing suffix — this agrees with the spec's
prefix/suffix stripping, and both return the body. -/
theorem C9_loader_strips_all_occurrences
    (gitlab_url line : String) (m : List Char)
    (hl : pyStrip line.toList =
      (pyRstripSlash gitlab_url.toList ++ ['/']) ++ m ++ ".git".toList)
    (h1 : occursIn (pyRstripSlash gitlab_url.toList ++ ['/'])
      (m ++ ".git".toList) = false)
    (h2 : occursIn ".git".toList (m ++ (".git".toList).take 3) = false) :
    normalize_line gitlab_url line = ⟨m⟩ ∧
    normalize_line_spec gitlab_url line = ⟨m⟩ := by
  have hbase : pyRstripSlash gitlab_url.toList ++ ['/'] ≠ [] := by simp
  have hgit : (".git".toList : List Char) ≠ [] := by decide
  have h2' : occursIn ".git".toList
      (m ++ (".git".toList).take ((".git".toList).length - 1)) = false := by
    have e : (".git".toList).length - 1 = 3 := by decide
    rw [e]
    exact h2
  have hA : listReplace (pyRstripSlash gitlab_url.toList ++ ['/']) []
      ((pyRstripSlash gitlab_url.toList ++ ['/']) ++ m ++ ".git".toList) =
      m ++ ".git".toList := by
    rw [List.append_assoc]
    unfold listReplace
    exact listReplaceF_strip _ hbase _ (m ++ ".git".toList) h1 (Nat.le_refl _)
  have hB : listReplace ".git".toList [] (m ++ ".git".toList) = m := by
    unfold listReplace
    have := listReplaceF_chop_suffix ".git".toList [] hgit m
      (m ++ ".git".toList).length h2' (Nat.le_refl _)
    simpa using this
  constructor
  · unfold normalize_line
    rw [hl, hA, hB]
  · unfold normalize_line_spec
    rw [hl]
    unfold stripPrefixThenSuffix
    rw [List.append_assoc]
    simp only [isPrefixOf_append_self, if_true, List.drop_left,
      isSuffixOf_append_self]
    have hlen : (m ++ ".git".toList).length - (".git".toList).length = m.length := by
      simp
    rw [hlen, List.take_left]

/-- Witness for the amended C9: a well-formed line where prefix and suffix
stripping and replace-all agree. -/
theorem C9_loader_strips_all_occurrences_witness :
    normalize_line "https://gitlab.com" "https://gitlab.com/org/app.git" =
      ⟨"org/app".toList⟩ ∧
    normalize_line_spec "https://gitlab.com" "https://gitlab.com/org/app.git" =
      ⟨"org/app".toList⟩ :=
  C9_loader_strips_all_occurrences "https://gitlab.com" "https://gitlab.com/org/app.git"
    "org/app".toList (by decide) (by decide) (by decide)
